import Mathlib

/-!
# A verification development for `fitness_tools/mywellness2tcx_pandas.py`

This file shallowly embeds the conversion pipeline of
`src/fitness_tools/mywellness2tcx_pandas.py` (MyWellness JSON → TCX) and
proves properties of the embedded definitions.

Modelling conventions, shared by every definition below:

* Python/numpy floating-point numbers are modelled as exact rationals `ℚ`.
* A pandas `NaN` cell (and a channel a row simply does not carry) is
  modelled as `none : Option ℚ`.  Arithmetic propagates `none` the way
  float arithmetic propagates `NaN`; comparisons with `none` are false the
  way every comparison with `NaN` is false; division by zero yields `none`
  (the float result would be `inf`/`nan`, and every place the program
  divides, the quotient immediately feeds a comparison that is false for
  `inf` and for `nan`, so the observable behaviour agrees).
* A Python exception of any kind raised inside a pipeline stage
  (`AssertionError` from the factor assertion, `IndexError` from `iloc` on
  an empty frame, `KeyError` from a missing column, `ValueError` from
  `interp1d` on fewer than two points or `int(nan)`) aborts the conversion
  before the output file is written.  Every stage therefore returns an
  `Option`, with `none` for "this stage raises".  The spec's `DataError`
  taxonomy names exactly these aborts.
* `datetime` values are `start_dt + timedelta(seconds=t)`; only their
  differences are ever used, so a row stores the raw offset `t : ℚ`.
  `timedelta.seconds` of the difference of two such datetimes is
  `(⌊t₂ - t₁⌋ % 86400)` — the seconds *component* of the normalised
  timedelta, which truncates the sub-second remainder and wraps at one
  day.  (Sub-microsecond rounding performed by the `timedelta`
  constructor is not modelled; offsets are taken at microsecond
  resolution or coarser, where the construction is exact.)
-/

/-- A cell of the sample table: a numeric value, or `none` for
`NaN`/missing (see the conventions above). -/
abbrev OptQ := Option ℚ

/-- One row of the pandas sample table.  `t` is the elapsed-time offset in
seconds (the `interval` column; the `datetime` column is `start_dt + t`
and is recovered from `t` wherever the program uses it).  The four channel
cells come from the descriptor zip; `smooth` and `hr` are the derived
columns `SmoothDistance` and `HeartRate`, absent (`none`) until the
corresponding stage fills them. -/
structure Row where
  t : ℚ
  speed : OptQ
  power : OptQ
  hdist : OptQ
  rpm : OptQ
  smooth : OptQ
  hr : OptQ
deriving DecidableEq

/-- One element of `analitics["samples"]`: the elapsed offset `t` and the
parallel value vector `vs`. -/
structure RawSample where
  t : ℚ
  vs : List ℚ
deriving DecidableEq

/-! ## Sample Extractor — `process_samples` (source lines 46–66) -/

/-- `dict(zip(fields, sample["vs"]))` followed by a key lookup.  `zip`
truncates to the shorter of the two lists, and a `dict` built from pairs
keeps the *last* binding of a duplicated key, hence the lookup on the
reversed pair list. -/
def dictZipLookup (fields : List String) (vs : List ℚ) (key : String) : OptQ :=
  ((fields.zip vs).reverse.lookup key)

/-- Build one table row from one raw sample (the loop body of source
lines 51–56). -/
def mkRow (fields : List String) (s : RawSample) : Row :=
  { t := s.t
    speed := dictZipLookup fields s.vs "Speed"
    power := dictZipLookup fields s.vs "Power"
    hdist := dictZipLookup fields s.vs "HDistance"
    rpm := dictZipLookup fields s.vs "Rpm"
    smooth := none
    hr := none }

/-- The check `last_sample["Speed"] != 0 or last_sample["Power"] != 0` of
source line 62, on a row of a frame whose column set is `se`/`pe`
(`true` when any row of the *original* frame carries the channel; pandas
keeps a frame's columns when rows are dropped).  Reading a column that
does not exist raises `KeyError` (`none`); a `NaN` cell compares unequal
to `0`, so `r.speed ≠ some 0` is the faithful test.  `some true` means
the loop breaks, `some false` that the row is dropped. -/
def trimCheck (se pe : Bool) (r : Row) : Option Bool :=
  if !se then none
  else if r.speed ≠ some 0 then some true
  else if !pe then none
  else some (r.power ≠ some 0)

/-- The `while not df_samples.empty` loop of source lines 60–64, running
over the reversed row list (the loop inspects and drops the last row). -/
def trimRev (se pe : Bool) : List Row → Option (List Row)
  | [] => some []
  | r :: rest =>
    match trimCheck se pe r with
    | none => none
    | some true => some (r :: rest)
    | some false => trimRev se pe rest

/-- The trailing-idle trim of source lines 60–66. -/
def trimTable (rows : List Row) : Option (List Row) :=
  let se := rows.any (fun r => r.speed.isSome)
  let pe := rows.any (fun r => r.power.isSome)
  (trimRev se pe rows.reverse).map List.reverse

/-- `process_samples` (source lines 46–66): zip the descriptor names onto
each value vector, attach offsets, and trim the trailing idle tail.
No validation of vector lengths or of required channels is performed. -/
def process_samples (fields : List String) (samples : List RawSample) :
    Option (List Row) :=
  trimTable (samples.map (mkRow fields))

/-! ## Distance Smoother — `calculate_distances` (source lines 69–100) -/

/-- The floor of a rational, in a form the kernel can evaluate
(`Rat.floor_def` identifies it with `⌊q⌋`). -/
def rfloor (q : ℚ) : ℤ := q.num / q.den

theorem rfloor_eq_floor (q : ℚ) : rfloor q = ⌊q⌋ := (Rat.floor_def).symm

/-- `(df["datetime"].iloc[i] - df["datetime"].iloc[i-1]).seconds`: the
seconds component of the normalised timedelta — whole seconds, truncated,
modulo one day (source lines 78–80 and 93–95). -/
def deltaSec (t1 t2 : ℚ) : ℚ :=
  ((rfloor (t2 - t1) % 86400 : ℤ) : ℚ)

/-- Pass 1 (source lines 75–82): starting from the first row's raw
distance, accumulate `delta_time * speed / 3.6` over the remaining rows;
only the final accumulator value is ever read (the provisional column is
overwritten by pass 2).  `pt` is the previous row's offset, `d` the
accumulator. -/
def pass1Step (pt : ℚ) (d : OptQ) (r : Row) : OptQ :=
  match d, r.speed with
  | some dv, some s => some (dv + deltaSec pt r.t * s / 3.6)
  | _, _ => none

def pass1Loop (pt : ℚ) (d : OptQ) : List Row → OptQ
  | [] => d
  | r :: rs => pass1Loop r.t (pass1Step pt d r) rs

/-- Float division as the program observes it: `none` when the quotient
would be `NaN`/`inf` (both make the factor assertion fail). -/
def oDiv : OptQ → OptQ → OptQ
  | some a, some b => if b = 0 then none else some (a / b)
  | _, _ => none

/-- `fact = df["HDistance"].iloc[-1] / dist` (source line 85): the last
raw distance over the last provisional pass-1 distance. -/
def factor (rows : List Row) : OptQ :=
  match rows with
  | [] => none
  | r0 :: rest =>
    oDiv ((r0 :: rest).getLast (List.cons_ne_nil r0 rest)).hdist
      (pass1Loop r0.t r0.hdist rest)

/-- Pass 2 (source lines 89–98): the same integration, each increment
multiplied by `fact`, written into the `SmoothDistance` column. -/
def pass2Step (f : ℚ) (pt : ℚ) (d : OptQ) (r : Row) : OptQ :=
  match d, r.speed with
  | some dv, some s => some (dv + deltaSec pt r.t * s / 3.6 * f)
  | _, _ => none

def pass2Rows (f : ℚ) (pt : ℚ) (d : OptQ) : List Row → List Row
  | [] => []
  | r :: rs =>
    { r with smooth := pass2Step f pt d r } ::
      pass2Rows f r.t (pass2Step f pt d r) rs

/-- `calculate_distances` (source lines 69–100).  An empty frame raises
`IndexError` at `iloc[0]`; a factor that is `NaN`/`inf` or outside the
open band `(0.94, 1.06)` fails the `assert` of line 87.  On success row 0
holds the first raw distance and the remaining rows the corrected
integration. -/
def calculate_distances (rows : List Row) : Option (List Row) :=
  match rows with
  | [] => none
  | r0 :: rest =>
    (factor (r0 :: rest)).bind fun f =>
      if 0.94 < f ∧ f < 1.06 then
        some ({ r0 with smooth := r0.hdist } :: pass2Rows f r0.t r0.hdist rest)
      else none

/-! ## Heart-Rate Resampler — `interpolate_heart_rates` (source lines 103–122) -/

/-- The ceiling of a rational, in a kernel-evaluable form
(`rceil_eq_ceil` identifies it with `⌈q⌉`). -/
def rceil (q : ℚ) : ℤ := -rfloor (-q)

theorem rceil_eq_ceil (q : ℚ) : rceil q = ⌈q⌉ := by
  rw [rceil, rfloor_eq_floor, ← Int.ceil_neg, neg_neg]

/-- Python `int(...)` on a float: truncation toward zero. -/
def qTrunc (q : ℚ) : ℤ :=
  if 0 ≤ q then rfloor q else rceil q

/-- Insertion into a list sorted by first component. -/
def insertPair (p : ℚ × ℚ) : List (ℚ × ℚ) → List (ℚ × ℚ)
  | [] => [p]
  | q :: qs => if p.1 ≤ q.1 then p :: q :: qs else q :: insertPair p qs

/-- `interp1d` sorts its abscissae (`assume_sorted` defaults to `False`);
an insertion sort by offset models that argsort for series with distinct
offsets (ties feed a zero-length segment and are excluded by every
hypothesis below). -/
def sortPairs : List (ℚ × ℚ) → List (ℚ × ℚ)
  | [] => []
  | p :: ps => insertPair p (sortPairs ps)

/-- Evaluation of the scipy piecewise-linear interpolant with
`fill_value="extrapolate"` over sorted points: pick the segment whose left
endpoint is the last abscissa `≤ x`, clamped into `[0, n-2]` (so queries
beyond either end extend the nearest segment's slope), and evaluate its
chord. -/
def interpAt (pts : List (ℚ × ℚ)) (x : ℚ) : ℚ :=
  let c := (pts.takeWhile (fun p => decide (p.1 ≤ x))).length
  let j := min (c - 1) (pts.length - 2)
  match pts.get? j, pts.get? (j + 1) with
  | some p, some q => p.2 + (x - p.1) * (q.2 - p.2) / (q.1 - p.1)
  | _, _ => 0

/-- `max(hr_times)` (source line 112); `max` of an empty list raises, but
every caller below has already failed on fewer than two points. -/
def hrMax (pts : List (ℚ × ℚ)) : ℚ :=
  match pts.map Prod.fst with
  | [] => 0
  | t :: ts => ts.foldl max t

/-- The length of `np.arange(5, max(hr_times) + 1, 5)`:
`max(0, ceil(((max + 1) - 5) / 5))` elements. -/
def gridLen (m : ℚ) : ℕ := (rceil ((m - 4) / 5)).toNat

/-- The grid offsets `np.arange(5, max(hr_times) + 1, 5)` as integers
(the dict keys `int(interval)`; the arange values `5.0 * (k + 1)` are
exact floats, so the conversion is exact). -/
def gridKeys (pts : List (ℚ × ℚ)) : List ℤ :=
  (List.range (gridLen (hrMax pts))).map (fun (k : ℕ) => 5 * ((k : ℤ) + 1))

/-- The dense lookup table `interpolated_hr_data` of source lines 112–117:
grid offset ↦ `int(interpolant(offset))`. -/
def hrTable (pts : List (ℚ × ℚ)) (key : ℤ) : Option ℤ :=
  if key ∈ gridKeys pts then some (qTrunc (interpAt (sortPairs pts) (key : ℚ)))
  else none

/-- `df_samples["interval"].map(interpolated_hr_data)` for one cell: a
pandas `map` against an int-keyed dict hits exactly when the interval
value equals one of the integer keys. -/
def lookupHR (pts : List (ℚ × ℚ)) (t : ℚ) : OptQ :=
  if t.den = 1 then (hrTable pts t.num).map (fun (z : ℤ) => (z : ℚ)) else none

/-- `Series.ffill` (source line 120): propagate the last non-missing value
forward; `acc` is the last value seen (initially missing). -/
def ffillList (acc : OptQ) : List OptQ → List OptQ
  | [] => []
  | none :: rest => acc :: ffillList acc rest
  | some v :: rest => some v :: ffillList (some v) rest

/-- Write a heart-rate column back into the rows. -/
def applyHR : List Row → List OptQ → List Row
  | [], _ => []
  | r :: rs, [] => r :: rs
  | r :: rs, v :: vs => { r with hr := v } :: applyHR rs vs

/-- `interpolate_heart_rates` (source lines 103–122).  `interp1d` raises
`ValueError` on fewer than two points (and `max([])` raises on none), so
the stage fails there; otherwise the mapped column is forward-filled.
Rows before the first resolvable offset keep a missing heart rate. -/
def interpolate_heart_rates (pts : List (ℚ × ℚ)) (rows : List Row) :
    Option (List Row) :=
  if pts.length < 2 then none
  else
    some (applyHR rows (ffillList none (rows.map (fun r => lookupHR pts r.t))))

/-! ## Metrics Aggregator — `calculate_metrics` (source lines 125–141) -/

/-- Pandas `Series.max()` with the default `skipna=True`: the maximum of
the non-missing cells, or missing when there are none. -/
def optMax (l : List OptQ) : OptQ :=
  match l.filterMap id with
  | [] => none
  | v :: vs => some (vs.foldl max v)

/-- Pandas `Series.mean()` with the default `skipna=True`: the mean of
the non-missing cells, or missing when there are none. -/
def optMean (l : List OptQ) : OptQ :=
  match l.filterMap id with
  | [] => none
  | v :: vs => some ((v :: vs).sum / (v :: vs).length)

/-- The summary dictionary returned by `calculate_metrics`. -/
structure Metrics where
  totalTimeSeconds : ℚ
  totalDistanceMeters : OptQ
  maxSpeed : OptQ
  avgHeartRateBpm : OptQ
  maxHeartRateBpm : OptQ
deriving DecidableEq

/-- `calculate_metrics` (source lines 125–141).  `iloc[-1]`/`iloc[0]` on
an empty frame raise `IndexError`; on a non-empty frame every reduction
succeeds (missing cells are skipped, never rejected). -/
def calculate_metrics (rows : List Row) : Option Metrics :=
  match rows with
  | [] => none
  | r0 :: rest =>
    let rl := (r0 :: rest).getLast (List.cons_ne_nil r0 rest)
    some
      { totalTimeSeconds := rl.t - r0.t
        totalDistanceMeters := rl.smooth
        maxSpeed := optMax ((r0 :: rest).map (fun r => r.speed))
        avgHeartRateBpm := optMean ((r0 :: rest).map (fun r => r.hr))
        maxHeartRateBpm := optMax ((r0 :: rest).map (fun r => r.hr)) }

/-! ## Activity Writer — `create_tcx` (source lines 144–187) -/

/-- Python `round(x, d)` / `format(x, ".df")`: round to `d` decimal
places, ties to even (the float operation rounds the binary value; exact
decimal ties are modelled with the same tie-to-even rule). -/
def roundHE (q : ℚ) : ℤ :=
  let f := rfloor q
  let r := q - (f : ℚ)
  if r < 1 / 2 then f
  else if 1 / 2 < r then f + 1
  else if f % 2 = 0 then f else f + 1

/-- `round(x, 1)`: one decimal place. -/
def round1 (q : ℚ) : ℚ := ((roundHE (10 * q) : ℤ) : ℚ) / 10

/-- One `Trackpoint` element: the texts it carries, as values.  `time` is
the offset whose ISO rendering of `start_dt + t` is written;
`distanceMeters` is `round(SmoothDistance, 1)`; `hrValue` is
`int(HeartRate)` — an integer, so its text is a whole-number string;
`cadence`/`watts` are the raw channel cells; `speedMS` is
`round(Speed / 3.6, 1)`. -/
structure Trackpoint where
  time : ℚ
  distanceMeters : OptQ
  hrValue : ℤ
  cadence : OptQ
  speedMS : OptQ
  watts : OptQ
deriving DecidableEq

/-- The loop body of source lines 169–181 for one row: `int(nan)` raises
`ValueError`, so a row with a missing heart rate aborts the writer (and
the output file, written only after the full tree is built, is never
produced). -/
def mkTrackpoint (r : Row) : Option Trackpoint :=
  match r.hr with
  | none => none
  | some h =>
    some
      { time := r.t
        distanceMeters := r.smooth.map round1
        hrValue := qTrunc h
        cadence := r.rpm
        speedMS := r.speed.map (fun s => round1 (s / 3.6))
        watts := r.power }

/-- The `for _, sample in df_samples.iterrows()` loop: one trackpoint per
row, in row order, aborting at the first failing row. -/
def buildTrack : List Row → Option (List Trackpoint)
  | [] => some []
  | r :: rs =>
    match mkTrackpoint r, buildTrack rs with
    | some tp, some tps => some (tp :: tps)
    | _, _ => none

/-- The output document: the lap-level texts (source lines 150–165) and
the ordered track. -/
structure TCX where
  sport : String
  totalTimeSeconds : ℚ
  distanceMeters : OptQ
  maxSpeed : OptQ
  calories : ℕ
  avgHeartRateBpm : Option ℤ
  maxHeartRateBpm : Option ℤ
  intensity : String
  triggerMethod : String
  track : List Trackpoint
deriving DecidableEq

/-- `create_tcx` (source lines 144–187): lap aggregates formatted from
the metrics (one decimal place for distances/speed, whole bpm), then one
trackpoint per row in table order. -/
def create_tcx (rows : List Row) (m : Metrics) : Option TCX :=
  (buildTrack rows).map fun tps =>
    { sport := "Biking"
      totalTimeSeconds := m.totalTimeSeconds
      distanceMeters := m.totalDistanceMeters.map round1
      maxSpeed := m.maxSpeed.map round1
      calories := 0
      avgHeartRateBpm := m.avgHeartRateBpm.map roundHE
      maxHeartRateBpm := m.maxHeartRateBpm.map roundHE
      intensity := "Active"
      triggerMethod := "Manual"
      track := tps }

/-! ## The pipeline — `main` (source lines 190–208) -/

/-- The conversion from the trimmed table on: smoother, resampler,
aggregator, writer.  `none` is an aborted conversion — no output file. -/
def pipelineAfterTrim (rows : List Row) (pts : List (ℚ × ℚ)) : Option TCX :=
  (calculate_distances rows).bind fun r2 =>
    (interpolate_heart_rates pts r2).bind fun r3 =>
      (calculate_metrics r3).bind fun m => create_tcx r3 m

/-- The whole conversion of `main`: extract and trim, then the rest. -/
def convert (fields : List String) (samples : List RawSample)
    (pts : List (ℚ × ℚ)) : Option TCX :=
  (process_samples fields samples).bind fun rows => pipelineAfterTrim rows pts

/-! ## Claim-side models

The corrected claims compare the source-side definitions above against
definitions written from the claims' own words.  Each is named `claim...`
and is used only in statements, never to define the pipeline. -/

/-- Modelled from the claim (C2): "whole seconds elapsed since row `i-1`,
sub-second remainder truncated" — a plain floor of the elapsed time, with
no wrap at one day. -/
def claimDelta (t1 t2 : ℚ) : ℚ := ((rfloor (t2 - t1) : ℤ) : ℚ)

/-- Modelled from the claim (C2): forward integration from a running
distance `d`, advancing by `claimDelta * speed / 3.6 * f` per row
(`f = 1` gives the unscaled pass-1 integration).  The claim speaks of
numeric tables; a missing speed cell reads as `0` here. -/
def claimIntegrate (f : ℚ) (pt d : ℚ) : List Row → List ℚ
  | [] => []
  | r :: rs =>
    (d + claimDelta pt r.t * r.speed.getD 0 / 3.6 * f) ::
      claimIntegrate f r.t (d + claimDelta pt r.t * r.speed.getD 0 / 3.6 * f) rs

/-- Modelled from the claim (C2): the pass-1 provisional column —
first row's raw distance, then the unscaled integration. -/
def claimProvisional (rows : List Row) : List ℚ :=
  match rows with
  | [] => []
  | r0 :: rest => r0.hdist.getD 0 :: claimIntegrate 1 r0.t (r0.hdist.getD 0) rest

/-- Modelled from the claim (C2): "factor is the last raw HDistance
divided by the last provisional distance". -/
def claimFactor (rows : List Row) : ℚ :=
  ((rows.getLast?).bind Row.hdist).getD 0 /
    ((claimProvisional rows).getLast?).getD 0

/-- Modelled from the claim (C2): the final smoothed-distance column —
first row's raw distance, then the integration scaled by the factor. -/
def claimSmoothCol (rows : List Row) : List ℚ :=
  match rows with
  | [] => []
  | r0 :: rest =>
    r0.hdist.getD 0 :: claimIntegrate (claimFactor rows) r0.t (r0.hdist.getD 0) rest

/-- Modelled from the claim (C3): the resolvable offsets and their values
— "every multiple of 5 seconds from 5 up to the maximum heart-rate offset
inclusive", valued by the piecewise-linear interpolant (the series is
given sorted, so it is interpolated as written). -/
def claimResolveOrig (pts : List (ℚ × ℚ)) (t : ℚ) : OptQ :=
  if 0 < t ∧ t.den = 1 ∧ t.num % 5 = 0 ∧ t ≤ hrMax pts then
    some ((qTrunc (interpAt pts t) : ℤ) : ℚ)
  else none

/-- The amended resolvable offsets (C3 corrected): multiples of 5
strictly below `max + 1` — one multiple of 5 inside `(max, max + 1)`
also resolves when the maximum offset is fractional. -/
def claimResolveAmended (pts : List (ℚ × ℚ)) (t : ℚ) : OptQ :=
  if 0 < t ∧ t.den = 1 ∧ t.num % 5 = 0 ∧ t < hrMax pts + 1 then
    some ((qTrunc (interpAt pts t) : ℤ) : ℚ)
  else none

/-- Modelled from the claim (C3): "the value at the nearest preceding
resolved offset" — walk the earlier offsets, most recent first. -/
def nearestPreceding (resolve : ℚ → OptQ) : List ℚ → OptQ
  | [] => none
  | t :: rest =>
    match resolve t with
    | some v => some v
    | none => nearestPreceding resolve rest

/-- Modelled from the claim (C3): each row resolves at its exact offset
when possible, otherwise to the nearest preceding resolved offset;
`revPrev` holds the offsets already passed, most recent first. -/
def claimHRsAux (resolve : ℚ → OptQ) : List ℚ → List ℚ → List OptQ
  | _, [] => []
  | revPrev, t :: rest =>
    (match resolve t with
     | some v => some v
     | none => nearestPreceding resolve revPrev) ::
      claimHRsAux resolve (t :: revPrev) rest

/-- Modelled from the claim (C3): the resolved heart-rate column. -/
def claimHRs (resolve : ℚ → OptQ) (ts : List ℚ) : List OptQ :=
  claimHRsAux resolve [] ts

/-! ## Helper lemmas: the Distance Smoother -/

theorem deltaSec_nonneg (t1 t2 : ℚ) : 0 ≤ deltaSec t1 t2 := by
  have h : 0 ≤ rfloor (t2 - t1) % 86400 :=
    Int.emod_nonneg _ (by norm_num)
  unfold deltaSec
  exact_mod_cast h

theorem pass1Step_none_left (pt : ℚ) (r : Row) : pass1Step pt none r = none := by
  cases h : r.speed <;> simp [pass1Step, h]

theorem pass1Loop_none (rs : List Row) : ∀ pt, pass1Loop pt none rs = none := by
  induction rs with
  | nil => intro pt; rfl
  | cons r rs ih =>
    intro pt
    rw [pass1Loop, pass1Step_none_left, ih]

theorem pass1Loop_speeds (rs : List Row) :
    ∀ pt d p, pass1Loop pt d rs = some p → ∀ r ∈ rs, r.speed.isSome := by
  induction rs with
  | nil => simp
  | cons r rs ih =>
    intro pt d p h r' hr'
    rw [pass1Loop] at h
    rcases List.mem_cons.1 hr' with rfl | hmem
    · cases hs : r'.speed
      · exfalso
        have hz : pass1Step pt d r' = none := by
          cases d <;> simp [pass1Step, hs]
        rw [hz, pass1Loop_none] at h
        exact absurd h (by simp)
      · simp [hs]
    · exact ih r.t _ p h r' hmem

theorem oDiv_eq_some {a b : OptQ} {f : ℚ} (h : oDiv a b = some f) :
    ∃ x y, a = some x ∧ b = some y ∧ y ≠ 0 ∧ f = x / y := by
  cases a with
  | none => simp [oDiv] at h
  | some x =>
    cases b with
    | none => simp [oDiv] at h
    | some y =>
      by_cases hy : y = 0
      · simp [oDiv, hy] at h
      · simp only [oDiv, if_neg hy, Option.some.injEq] at h
        exact ⟨x, y, rfl, rfl, hy, h.symm⟩

theorem factor_some_parts {r0 : Row} {rest : List Row} {f : ℚ}
    (h : factor (r0 :: rest) = some f) :
    ∃ p, pass1Loop r0.t r0.hdist rest = some p ∧ p ≠ 0 ∧
      ∃ hL, ((r0 :: rest).getLast (List.cons_ne_nil r0 rest)).hdist = some hL ∧
        f = hL / p := by
  rw [factor] at h
  obtain ⟨x, y, hx, hy, hy0, hf⟩ := oDiv_eq_some h
  exact ⟨y, hy, hy0, x, hx, hf⟩

theorem factor_hdist0 {r0 : Row} {rest : List Row} {f : ℚ}
    (h : factor (r0 :: rest) = some f) : ∃ d0, r0.hdist = some d0 := by
  obtain ⟨p, hp, -, -⟩ := factor_some_parts h
  cases hd : r0.hdist with
  | none => rw [hd, pass1Loop_none] at hp; exact absurd hp (by simp)
  | some d0 => exact ⟨d0, rfl⟩

theorem cd_some_shape {r0 : Row} {rest out : List Row}
    (h : calculate_distances (r0 :: rest) = some out) :
    ∃ f, factor (r0 :: rest) = some f ∧ (0.94 < f ∧ f < 1.06) ∧
      out = { r0 with smooth := r0.hdist } :: pass2Rows f r0.t r0.hdist rest := by
  rw [calculate_distances] at h
  cases hf : factor (r0 :: rest) with
  | none => rw [hf] at h; exact absurd h (by simp)
  | some f =>
    rw [hf, Option.some_bind] at h
    by_cases hb : 0.94 < f ∧ f < 1.06
    · rw [if_pos hb] at h
      exact ⟨f, rfl, hb, (Option.some.inj h).symm⟩
    · rw [if_neg hb] at h
      exact absurd h (by simp)

theorem cd_none_of_outside {rows : List Row} {f : ℚ}
    (hf : factor rows = some f) (hout : f < 0.94 ∨ 1.06 < f) :
    calculate_distances rows = none := by
  cases rows with
  | nil => rfl
  | cons r0 rest =>
    have hb : ¬(0.94 < f ∧ f < 1.06) := by
      rcases hout with h | h
      · rintro ⟨h1, -⟩; linarith
      · rintro ⟨-, h2⟩; linarith
    rw [calculate_distances, hf, Option.some_bind, if_neg hb]

theorem pass2Rows_length (f : ℚ) (rs : List Row) :
    ∀ pt d, (pass2Rows f pt d rs).length = rs.length := by
  induction rs with
  | nil => intro pt d; rfl
  | cons r rs ih => intro pt d; simp only [pass2Rows, List.length_cons, ih]

theorem pass2Rows_map_t (f : ℚ) (rs : List Row) :
    ∀ pt d, (pass2Rows f pt d rs).map Row.t = rs.map Row.t := by
  induction rs with
  | nil => intro pt d; rfl
  | cons r rs ih => intro pt d; simp only [pass2Rows, List.map_cons, ih]

/-- The per-step relation the corrected C2 recurrence states: the next
row's smoothed distance advances the previous one by
`deltaSec * speed / 3.6 * factor`. -/
def stepRel (f : ℚ) (a b : Row) : Prop :=
  ∃ x s, a.smooth = some x ∧ b.speed = some s ∧
    b.smooth = some (x + deltaSec a.t b.t * s / 3.6 * f)

theorem pass2Rows_chain (f : ℚ) (rs : List Row) :
    ∀ (r' : Row) (d : ℚ), r'.smooth = some d →
      (∀ r ∈ rs, r.speed.isSome) →
      List.Chain' (stepRel f) (r' :: pass2Rows f r'.t (some d) rs) := by
  induction rs with
  | nil => intro r' d _ _; simp [pass2Rows]
  | cons r rs ih =>
    intro r' d hd hs
    obtain ⟨s, hsp⟩ :=
      Option.isSome_iff_exists.1 (hs r (List.mem_cons_self r rs))
    have hstep : pass2Step f r'.t (some d) r =
        some (d + deltaSec r'.t r.t * s / 3.6 * f) := by
      simp [pass2Step, hsp]
    rw [pass2Rows, hstep]
    refine List.chain'_cons.2 ⟨⟨d, s, hd, by simp [hsp], by simp⟩, ?_⟩
    have htail :=
      ih { r with smooth := some (d + deltaSec r'.t r.t * s / 3.6 * f) }
        (d + deltaSec r'.t r.t * s / 3.6 * f) rfl
        (fun x hx => hs x (List.mem_cons_of_mem r hx))
    simpa using htail

/-- The per-step relation of C10: consecutive smoothed distances are
non-decreasing. -/
def leSmooth (a b : Row) : Prop :=
  ∃ x y, a.smooth = some x ∧ b.smooth = some y ∧ x ≤ y

theorem pass2Rows_mono (f : ℚ) (hf : 0 ≤ f) (rs : List Row) :
    ∀ (r' : Row) (d : ℚ), r'.smooth = some d →
      (∀ r ∈ rs, ∃ s, r.speed = some s ∧ 0 ≤ s) →
      List.Chain' leSmooth (r' :: pass2Rows f r'.t (some d) rs) := by
  induction rs with
  | nil => intro r' d _ _; simp [pass2Rows]
  | cons r rs ih =>
    intro r' d hd hs
    obtain ⟨s, hsp, hs0⟩ := hs r (List.mem_cons_self r rs)
    have hstep : pass2Step f r'.t (some d) r =
        some (d + deltaSec r'.t r.t * s / 3.6 * f) := by
      simp [pass2Step, hsp]
    rw [pass2Rows, hstep]
    have hinc : 0 ≤ deltaSec r'.t r.t * s / 3.6 * f :=
      mul_nonneg (div_nonneg (mul_nonneg (deltaSec_nonneg _ _) hs0) (by norm_num)) hf
    refine List.chain'_cons.2
      ⟨⟨d, d + deltaSec r'.t r.t * s / 3.6 * f, hd, by simp, by linarith⟩, ?_⟩
    have htail :=
      ih { r with smooth := some (d + deltaSec r'.t r.t * s / 3.6 * f) }
        (d + deltaSec r'.t r.t * s / 3.6 * f) rfl
        (fun x hx => hs x (List.mem_cons_of_mem r hx))
    simpa using htail

/-! ## Concrete fixtures -/

/-- A row with every channel present. -/
def mkR (t sp pw hd rp : ℚ) : Row :=
  { t := t, speed := some sp, power := some pw, hdist := some hd,
    rpm := some rp, smooth := none, hr := none }

/-- A healthy trimmed table: integrated distance 50 m, raw distance 50 m,
factor 1. -/
def rowsA : List Row := [mkR 0 0 0 0 0, mkR 5 36 100 50 80]

/-- `rowsA` after the Distance Smoother. -/
def outA : List Row :=
  [{ mkR 0 0 0 0 0 with smooth := some 0 },
   { mkR 5 36 100 50 80 with smooth := some 50 }]

/-- A corrupt table: integrated distance 50 m but raw distance 25 m,
factor 1/2 — outside the band. -/
def rowsB : List Row := [mkR 0 0 0 0 0, mkR 5 36 100 25 80]

/-- A table with a one-day gap: offsets 0, 1, 86401 s.  The smoother's
`timedelta.seconds` sees the last gap as `0`, not `86400`. -/
def rowsC : List Row :=
  [mkR 0 0 0 0 0, mkR 1 36 100 5 80, mkR 86401 36 100 10 80]

theorem cdA_eval : calculate_distances rowsA = some outA := by
  norm_num [rowsA, outA, mkR, calculate_distances, factor, pass1Loop,
    pass1Step, pass2Rows, pass2Step, oDiv, deltaSec, rfloor, List.getLast]

theorem factB_eval : factor rowsB = some (1 / 2) := by
  norm_num [rowsB, mkR, factor, pass1Loop, pass1Step, oDiv, deltaSec,
    rfloor, List.getLast]

theorem cdC_eval :
    (calculate_distances rowsC).map (List.map Row.smooth) =
      some [some 0, some 10, some 10] := by
  norm_num [rowsC, mkR, calculate_distances, factor, pass1Loop, pass1Step,
    pass2Rows, pass2Step, oDiv, deltaSec, rfloor, List.getLast]

theorem claimSmoothCol_C_eval :
    claimSmoothCol rowsC = [0, 10 / 86401, 864010 / 86401] := by
  norm_num [rowsC, mkR, claimSmoothCol, claimFactor, claimProvisional,
    claimIntegrate, claimDelta, rfloor]

/-! ## C1 — the factor band and the abort on its violation -/

/-- C1: a trimmed table the Distance Smoother accepts has its correction
factor (last raw distance over last pass-1 provisional distance) inside
`[0.94, 1.06]`; a factor outside that band makes `calculate_distances`
fail and the conversion produce no output. -/
theorem distance_factor_band_or_abort (rows : List Row) (pts : List (ℚ × ℚ)) :
    (∀ out, calculate_distances rows = some out →
      ∃ f, factor rows = some f ∧ 0.94 ≤ f ∧ f ≤ 1.06) ∧
    (∀ f, factor rows = some f → f < 0.94 ∨ 1.06 < f →
      calculate_distances rows = none ∧ pipelineAfterTrim rows pts = none) := by
  constructor
  · intro out h
    cases rows with
    | nil => exact absurd h (by simp [calculate_distances])
    | cons r0 rest =>
      obtain ⟨f, hf, hb, -⟩ := cd_some_shape h
      exact ⟨f, hf, le_of_lt hb.1, le_of_lt hb.2⟩
  · intro f hf hout
    have hnone := cd_none_of_outside hf hout
    exact ⟨hnone, by simp [pipelineAfterTrim, hnone]⟩

/-- Witness for C1: `rowsA` is accepted with factor 1 inside the band;
`rowsB` has factor 1/2 and aborts with no output. -/
theorem distance_factor_band_or_abort_witness :
    (∃ f, factor rowsA = some f ∧ 0.94 ≤ f ∧ f ≤ 1.06) ∧
    (calculate_distances rowsB = none ∧ pipelineAfterTrim rowsB [] = none) := by
  refine ⟨(distance_factor_band_or_abort rowsA []).1 outA cdA_eval, ?_⟩
  exact (distance_factor_band_or_abort rowsB []).2 (1 / 2) factB_eval
    (Or.inl (by norm_num))

/-! ## C2 — the smoothed-distance recurrence -/

/-- Counterexample to C2 as stated: on `rowsC` (a one-day gap between the
last two rows) the code's smoothed column is `[0, 10, 10]` — the last gap
contributes nothing because `timedelta.seconds` wraps at one day — while
the claim's recurrence (true elapsed whole seconds, factor from the same
unscaled integration) mandates `[0, 10/86401, 864010/86401]`; already row
1 differs (`10 ≠ 10/86401`). -/
theorem distance_recurrence_cex :
    (calculate_distances rowsC).map (List.map Row.smooth) =
      some [some 0, some 10, some 10] ∧
    claimSmoothCol rowsC = [0, 10 / 86401, 864010 / 86401] ∧
    (10 : ℚ) ≠ 10 / 86401 := by
  refine ⟨cdC_eval, claimSmoothCol_C_eval, by norm_num⟩

/-- C2 (amended): when the Distance Smoother succeeds, row 0 of the
smoothed column is the first row's raw `HDistance`, and each later row
advances the previous by `Δ * speed / 3.6 * factor` where `Δ` is the
elapsed whole seconds *reduced modulo 86400* (`deltaSec`; the seconds
component of the Python timedelta) — the claim as stated holds whenever
all consecutive gaps are below one day.  The factor is the last raw
distance over the last provisional distance of the identical unscaled
pass-1 integration (`factor`). -/
theorem distance_recurrence_mod86400 (rows out : List Row)
    (h : calculate_distances rows = some out) :
    ∃ f, factor rows = some f ∧
      out.length = rows.length ∧
      (out.map Row.smooth).head? = (rows.map Row.hdist).head? ∧
      out.map Row.t = rows.map Row.t ∧
      List.Chain' (stepRel f) out := by
  cases rows with
  | nil => exact absurd h (by simp [calculate_distances])
  | cons r0 rest =>
    obtain ⟨f, hf, hb, hout⟩ := cd_some_shape h
    obtain ⟨p, hp, -, -⟩ := factor_some_parts hf
    obtain ⟨d0, hd0⟩ := factor_hdist0 hf
    have hsp := pass1Loop_speeds rest r0.t r0.hdist p hp
    subst hout
    refine ⟨f, hf, ?_, ?_, ?_, ?_⟩
    · simp [pass2Rows_length]
    · simp
    · simp [pass2Rows_map_t]
    · have := pass2Rows_chain f rest { r0 with smooth := r0.hdist } d0
        (by simp [hd0]) hsp
      simpa [hd0] using this

/-- Witness for the amended C2, at the healthy fixture `rowsA`. -/
theorem distance_recurrence_mod86400_witness :
    ∃ f, factor rowsA = some f ∧
      outA.length = rowsA.length ∧
      (outA.map Row.smooth).head? = (rowsA.map Row.hdist).head? ∧
      outA.map Row.t = rowsA.map Row.t ∧
      List.Chain' (stepRel f) outA :=
  distance_recurrence_mod86400 rowsA outA cdA_eval

/-! ## C10 — monotonicity of the smoothed column -/

/-- C10: for a table with non-decreasing timestamps and non-negative
speeds that the Distance Smoother accepts (so the factor is positive),
the smoothed-distance column is monotonically non-decreasing. -/
theorem smooth_distance_monotone (rows out : List Row)
    (hsort : List.Chain' (fun a b : Row => a.t ≤ b.t) rows)
    (hspeed : ∀ r ∈ rows, ∀ s, r.speed = some s → 0 ≤ s)
    (h : calculate_distances rows = some out) :
    List.Chain' leSmooth out := by
  cases rows with
  | nil => exact absurd h (by simp [calculate_distances])
  | cons r0 rest =>
    obtain ⟨f, hf, hb, hout⟩ := cd_some_shape h
    obtain ⟨p, hp, -, -⟩ := factor_some_parts hf
    obtain ⟨d0, hd0⟩ := factor_hdist0 hf
    have hf0 : 0 ≤ f := le_of_lt (lt_trans (by norm_num) hb.1)
    have hsp : ∀ r ∈ rest, ∃ s, r.speed = some s ∧ 0 ≤ s := by
      intro r hr
      obtain ⟨s, hs⟩ := Option.isSome_iff_exists.1
        (pass1Loop_speeds rest r0.t r0.hdist p hp r hr)
      exact ⟨s, hs, hspeed r (List.mem_cons_of_mem r0 hr) s hs⟩
    subst hout
    have := pass2Rows_mono f hf0 rest { r0 with smooth := r0.hdist } d0
      (by simp [hd0]) hsp
    simpa [hd0] using this

/-- Witness for C10, at the healthy fixture `rowsA`. -/
theorem smooth_distance_monotone_witness : List.Chain' leSmooth outA := by
  refine smooth_distance_monotone rowsA outA ?_ ?_ cdA_eval
  · norm_num [rowsA, mkR, List.chain'_cons]
  · intro r hr s hs
    simp only [rowsA, mkR, List.mem_cons, List.not_mem_nil, or_false] at hr
    rcases hr with rfl | rfl <;> simp_all
    all_goals linarith

/-! ## Helper lemmas: the Sample Extractor -/

/-- The drop condition of the trailing trim, for rows whose cells are
present: both `Speed` and `Power` equal to zero. -/
def zeroRow (r : Row) : Bool :=
  decide (r.speed = some 0 ∧ r.power = some 0)

theorem trimRev_eq_dropWhile (l : List Row)
    (hp : ∀ r ∈ l, r.speed.isSome ∧ r.power.isSome) :
    trimRev true true l = some (l.dropWhile zeroRow) := by
  induction l with
  | nil => rfl
  | cons r rest ih =>
    by_cases hs : r.speed = some 0
    · by_cases hw : r.power = some 0
      · have hc : trimCheck true true r = some false := by
          simp [trimCheck, hs, hw]
        have hz : zeroRow r = true := by simp [zeroRow, hs, hw]
        simp only [trimRev, hc, List.dropWhile_cons, hz, if_true]
        exact ih fun x hx => hp x (List.mem_cons_of_mem r hx)
      · have hc : trimCheck true true r = some true := by
          simp [trimCheck, hs, hw]
        have hz : zeroRow r = false := by simp [zeroRow, hw]
        simp [trimRev, hc, List.dropWhile_cons, hz]
    · have hc : trimCheck true true r = some true := by simp [trimCheck, hs]
      have hz : zeroRow r = false := by simp [zeroRow, hs]
      simp [trimRev, hc, List.dropWhile_cons, hz]

theorem dropWhile_ne_head {α : Type} (p : α → Bool) (l : List α) (x : α)
    (xs : List α) (h : l.dropWhile p = x :: xs) : p x = false := by
  induction l with
  | nil => simp at h
  | cons a as ih =>
    rw [List.dropWhile_cons] at h
    by_cases hpa : p a = true
    · rw [if_pos hpa] at h; exact ih h
    · rw [if_neg hpa] at h
      injection h with h1 h2
      subst h1
      exact Bool.eq_false_iff.mpr hpa

/-! ## C7 — the trailing-idle trim -/

/-- C7: on a table whose `Speed` and `Power` cells are all present, the
trim succeeds and returns a prefix of the table; every dropped row had
both cells zero, and the result is empty or ends in a row with nonzero
`Speed` or nonzero `Power`. -/
theorem trailing_trim_spec (rows : List Row)
    (hp : ∀ r ∈ rows, r.speed.isSome ∧ r.power.isSome) :
    ∃ res tail, trimTable rows = some res ∧ rows = res ++ tail ∧
      (∀ r ∈ tail, r.speed = some 0 ∧ r.power = some 0) ∧
      (res = [] ∨ ∃ r, res.getLast? = some r ∧
        (r.speed ≠ some 0 ∨ r.power ≠ some 0)) := by
  cases rows with
  | nil => exact ⟨[], [], rfl, rfl, by simp, Or.inl rfl⟩
  | cons r0 rest =>
    have hse : (r0 :: rest).any (fun r => r.speed.isSome) = true :=
      List.any_eq_true.2
        ⟨r0, List.mem_cons_self _ _, (hp r0 (List.mem_cons_self _ _)).1⟩
    have hpe : (r0 :: rest).any (fun r => r.power.isSome) = true :=
      List.any_eq_true.2
        ⟨r0, List.mem_cons_self _ _, (hp r0 (List.mem_cons_self _ _)).2⟩
    have hrevp : ∀ r ∈ (r0 :: rest).reverse, r.speed.isSome ∧ r.power.isSome :=
      fun r hr => hp r (List.mem_reverse.1 hr)
    have htr := trimRev_eq_dropWhile ((r0 :: rest).reverse) hrevp
    have htt : trimTable (r0 :: rest) =
        some (((r0 :: rest).reverse.dropWhile zeroRow).reverse) := by
      simp only [trimTable, hse, hpe, htr, Option.map_some']
    refine ⟨((r0 :: rest).reverse.dropWhile zeroRow).reverse,
      ((r0 :: rest).reverse.takeWhile zeroRow).reverse, htt, ?_, ?_, ?_⟩
    · rw [← List.reverse_append, List.takeWhile_append_dropWhile,
        List.reverse_reverse]
    · intro r hr
      have hz := List.mem_takeWhile_imp (List.mem_reverse.1 hr)
      simpa [zeroRow] using hz
    · cases hd : (r0 :: rest).reverse.dropWhile zeroRow with
      | nil => left; simp [hd]
      | cons x xs =>
        right
        refine ⟨x, by rw [List.getLast?_reverse]; rfl, ?_⟩
        have hz := dropWhile_ne_head zeroRow _ x xs hd
        simp only [zeroRow, decide_eq_false_iff_not] at hz
        tauto

/-- Witness for C7, at the spec's three-row fixture (its `Speed` and
`Power` cells are all present). -/
theorem trailing_trim_spec_witness :
    ∃ res tail,
      trimTable [mkR 0 0 0 0 0, mkR 5 36 100 50 80, mkR 10 0 0 100 0] =
        some res ∧
      [mkR 0 0 0 0 0, mkR 5 36 100 50 80, mkR 10 0 0 100 0] = res ++ tail ∧
      (∀ r ∈ tail, r.speed = some 0 ∧ r.power = some 0) ∧
      (res = [] ∨ ∃ r, res.getLast? = some r ∧
        (r.speed ≠ some 0 ∨ r.power ≠ some 0)) :=
  trailing_trim_spec _ (by decide)

/-! ## C8 — the three-sample round-trip fixture -/

/-- The fixture descriptor and samples of the spec's round-trip scenario. -/
def fields8 : List String := ["Speed", "Power", "HDistance", "Rpm"]

def samples8 : List RawSample :=
  [⟨0, [0, 0, 0, 0]⟩, ⟨5, [36, 100, 50, 80]⟩, ⟨10, [0, 0, 100, 0]⟩]

/-- C8: on the fixture, the trim drops exactly the row at offset 10 (both
`Speed` and `Power` zero there), leaving two rows that end at offset 5
with `Speed` 36 ≠ 0. -/
theorem trim_fixture_roundtrip :
    process_samples fields8 samples8 =
      some [mkR 0 0 0 0 0, mkR 5 36 100 50 80] ∧
    [mkR 0 0 0 0 0, mkR 5 36 100 50 80].length = 2 ∧
    [mkR 0 0 0 0 0, mkR 5 36 100 50 80].getLast? = some (mkR 5 36 100 50 80) ∧
    (mkR 5 36 100 50 80).t = 5 ∧
    (mkR 5 36 100 50 80).speed = some 36 ∧ (36 : ℚ) ≠ 0 := by
  refine ⟨by decide, by decide, by decide, by decide, by decide, by decide⟩

/-! ## C5 — no extractor validation -/

/-- Counterexample to C5 as stated: a value vector of length 3 against
the four-channel descriptor does *not* raise — `process_samples`
succeeds, silently truncating via `zip` (the unmatched `Rpm` channel is
simply missing from the row). -/
theorem extractor_truncation_cex :
    process_samples fields8 [⟨0, [36, 100, 50]⟩] =
      some [{ t := 0, speed := some 36, power := some 100,
              hdist := some 50, rpm := none, smooth := none, hr := none }] ∧
    process_samples fields8 [⟨0, [36, 100, 50]⟩] ≠ none := by
  refine ⟨by decide, by decide⟩

/-- C5 (amended): the Sample Extractor performs no validation at all.
Whatever the relation between descriptor length and value-vector lengths
— shorter vectors silently truncated by the positional `zip`, missing
channels left unset — extraction succeeds and returns the zipped rows
whenever the last row's `Speed` cell is present and nonzero (so the trim
stops immediately); a missing required channel surfaces, at the earliest,
as a `KeyError` in a *later* consumer of the column. -/
theorem extractor_no_validation (fields : List String)
    (samples : List RawSample) (s : RawSample)
    (hlast : samples.getLast? = some s)
    (hv : (mkRow fields s).speed.isSome)
    (hnz : (mkRow fields s).speed ≠ some 0) :
    process_samples fields samples = some (samples.map (mkRow fields)) := by
  have hmlast : (samples.map (mkRow fields)).getLast? =
      some (mkRow fields s) := by
    rw [List.getLast?_map, hlast]; rfl
  have hhead : (samples.map (mkRow fields)).reverse.head? =
      some (mkRow fields s) := by
    rw [List.head?_reverse]; exact hmlast
  obtain ⟨rev', hrev⟩ : ∃ rev',
      (samples.map (mkRow fields)).reverse = mkRow fields s :: rev' := by
    cases hr : (samples.map (mkRow fields)).reverse with
    | nil => rw [hr] at hhead; exact absurd hhead (by simp)
    | cons a as =>
      rw [hr] at hhead
      simp only [List.head?_cons, Option.some.injEq] at hhead
      exact ⟨as, by rw [hhead]⟩
  have hse : (samples.map (mkRow fields)).any (fun r => r.speed.isSome) = true := by
    refine List.any_eq_true.2 ⟨mkRow fields s, ?_, hv⟩
    refine List.mem_reverse.1 ?_
    rw [hrev]
    exact List.mem_cons_self _ _
  have hcheck : ∀ pe, trimCheck true pe (mkRow fields s) = some true := by
    intro pe; simp [trimCheck, hnz]
  simp only [process_samples, trimTable, hse, hrev, trimRev, hcheck,
    Option.map_some']
  rw [← hrev, List.reverse_reverse]

/-- Witness for the amended C5: a one-channel value vector against the
four-channel descriptor extracts fine. -/
theorem extractor_no_validation_witness :
    process_samples fields8 [⟨0, [5]⟩] =
      some [{ t := 0, speed := some 5, power := none, hdist := none,
              rpm := none, smooth := none, hr := none }] := by
  have h := extractor_no_validation fields8 [⟨0, [5]⟩] ⟨0, [5]⟩ rfl
    (by decide) (by decide)
  rw [h]
  decide

/-! ## Helper lemmas: the Heart-Rate Resampler -/

theorem sortPairs_sorted_id (l : List (ℚ × ℚ))
    (hs : List.Chain' (fun a b => a.1 < b.1) l) : sortPairs l = l := by
  induction l with
  | nil => rfl
  | cons p ps ih =>
    cases ps with
    | nil => rfl
    | cons q qs =>
      obtain ⟨hpq, hrest⟩ := List.chain'_cons.1 hs
      rw [sortPairs, ih hrest, insertPair, if_pos (le_of_lt hpq)]

theorem ffill_claim_eq (resolve : ℚ → OptQ) (rest : List ℚ) :
    ∀ revPrev,
      ffillList (nearestPreceding resolve revPrev) (rest.map resolve) =
        claimHRsAux resolve revPrev rest := by
  induction rest with
  | nil => intro revPrev; rfl
  | cons t rest' ih =>
    intro revPrev
    cases hrt : resolve t with
    | none =>
      have ih' := ih (t :: revPrev)
      have hstep : nearestPreceding resolve (t :: revPrev) =
          nearestPreceding resolve revPrev := by
        rw [nearestPreceding, hrt]
      rw [hstep] at ih'
      rw [List.map_cons, hrt, ffillList, claimHRsAux, hrt, ih']
    | some v =>
      have ih' := ih (t :: revPrev)
      have hstep : nearestPreceding resolve (t :: revPrev) = some v := by
        rw [nearestPreceding, hrt]
      rw [hstep] at ih'
      rw [List.map_cons, hrt, ffillList, claimHRsAux, hrt, ih']

theorem ffillList_length (l : List OptQ) :
    ∀ acc, (ffillList acc l).length = l.length := by
  induction l with
  | nil => intro acc; rfl
  | cons a l ih => intro acc; cases a <;> simp [ffillList, ih]

theorem applyHR_map_hr (rows : List Row) :
    ∀ vs, vs.length = rows.length → (applyHR rows vs).map Row.hr = vs := by
  induction rows with
  | nil => intro vs hl; rw [List.length_nil, List.length_eq_zero] at hl; subst hl; rfl
  | cons r rows ih =>
    intro vs hl
    cases vs with
    | nil => exact absurd hl (by simp)
    | cons v vs' =>
      rw [applyHR, List.map_cons]
      simp only [List.length_cons, Nat.succ.injEq] at hl
      rw [ih vs' hl]

theorem applyHR_map_t (rows : List Row) :
    ∀ vs, (applyHR rows vs).map Row.t = rows.map Row.t := by
  induction rows with
  | nil => intro vs; rfl
  | cons r rows ih =>
    intro vs
    cases vs with
    | nil => rfl
    | cons v vs' => rw [applyHR, List.map_cons, ih vs', List.map_cons]

theorem gridKeys_mem (pts : List (ℚ × ℚ)) (k : ℤ) :
    k ∈ gridKeys pts ↔
      0 < k ∧ k % 5 = 0 ∧ (k : ℚ) < hrMax pts + 1 := by
  rw [gridKeys, List.mem_map]
  constructor
  · rintro ⟨j, hj, rfl⟩
    rw [List.mem_range, gridLen] at hj
    have hj' : (j : ℤ) < rceil ((hrMax pts - 4) / 5) := Int.lt_toNat.1 hj
    rw [rceil_eq_ceil] at hj'
    have hq : (j : ℚ) < (hrMax pts - 4) / 5 := by exact_mod_cast Int.lt_ceil.1 hj'
    rw [lt_div_iff₀ (by norm_num : (0 : ℚ) < 5)] at hq
    refine ⟨by omega, by omega, ?_⟩
    push_cast
    linarith
  · rintro ⟨hk0, hk5, hkm⟩
    obtain ⟨c, rfl⟩ : ∃ c, k = 5 * c := ⟨k / 5, by omega⟩
    have hc1 : 1 ≤ c := by omega
    refine ⟨(c - 1).toNat, ?_, by omega⟩
    rw [List.mem_range, gridLen]
    have h5c : (5 * c : ℚ) < hrMax pts + 1 := by exact_mod_cast hkm
    have hq : ((c : ℚ) - 1) < (hrMax pts - 4) / 5 := by
      rw [lt_div_iff₀ (by norm_num : (0 : ℚ) < 5)]
      linarith
    have hz : (c - 1 : ℤ) < rceil ((hrMax pts - 4) / 5) := by
      rw [rceil_eq_ceil]
      refine Int.lt_ceil.2 ?_
      push_cast
      exact hq
    omega

theorem rat_intCast_of_den_one {t : ℚ} (hden : t.den = 1) :
    ((t.num : ℚ)) = t := by
  conv_rhs => rw [← Rat.num_div_den t]
  rw [hden]
  norm_num

theorem lookupHR_eq_claimAmended (pts : List (ℚ × ℚ))
    (hs : List.Chain' (fun a b => a.1 < b.1) pts) (t : ℚ) :
    lookupHR pts t = claimResolveAmended pts t := by
  by_cases hden : t.den = 1
  · have htq : ((t.num : ℚ)) = t := rat_intCast_of_den_one hden
    rw [lookupHR, if_pos hden, hrTable]
    by_cases hmem : t.num ∈ gridKeys pts
    · obtain ⟨h0, h5, hm⟩ := (gridKeys_mem pts t.num).1 hmem
      rw [if_pos hmem, claimResolveAmended,
        if_pos ⟨Rat.num_pos.1 h0, hden, h5, by rwa [htq] at hm⟩,
        sortPairs_sorted_id pts hs, htq, Option.map_some']
    · rw [if_neg hmem, claimResolveAmended, if_neg ?_, Option.map_none']
      rintro ⟨h0, -, h5, hm⟩
      exact hmem ((gridKeys_mem pts t.num).2
        ⟨Rat.num_pos.2 h0, h5, by rwa [htq]⟩)
  · rw [lookupHR, if_neg hden, claimResolveAmended, if_neg (by tauto)]

/-! ## C3 — the heart-rate resampling -/

/-- The heart-rate fixture of the C3 counterexample: a fractional maximum
offset 9.5 s. -/
def c3pts : List (ℚ × ℚ) := [(0, 60), (19 / 2, 120)]

/-- One sample row at offset 10 s — past the last heart-rate point but
still on the code's grid (`arange(5, 9.5 + 1, 5) = [5, 10]`). -/
def c3row : Row := mkR 10 36 100 50 80

theorem gridLen_c3 : gridLen (hrMax c3pts) = 2 := by
  norm_num [gridLen, hrMax, c3pts, max_def, rceil, rfloor]
  rfl

theorem gridKeys_c3 : gridKeys c3pts = [5, 10] := by
  rw [gridKeys, gridLen_c3]; rfl

theorem hrTable_c3 : hrTable c3pts 10 = some 123 := by
  rw [hrTable, gridKeys_c3]
  norm_num [c3pts, sortPairs, insertPair, interpAt, qTrunc, rceil, rfloor]

theorem lookupHR_c3 : lookupHR c3pts 10 = some 123 := by
  rw [lookupHR]
  norm_num [hrTable_c3]

/-- Counterexample to C3 as stated: with heart-rate points at offsets 0
and 9.5 s, the code's grid `arange(5, max + 1, 5)` contains 10 — *beyond*
the claimed "up to the maximum offset inclusive" — so a sample row at
offset 10 receives the extrapolated value 123 bpm where the claim's table
(grid capped at the maximum, 9.5) leaves the row unresolved. -/
theorem hr_resample_cex :
    interpolate_heart_rates c3pts [c3row] =
      some [{ c3row with hr := some 123 }] ∧
    claimHRs (claimResolveOrig c3pts) ([c3row].map Row.t) = [none] ∧
    (some (123 : ℚ) ≠ (none : OptQ)) := by
  refine ⟨?_, ?_, by simp⟩
  · have hl : c3pts.length = 2 := rfl
    norm_num [interpolate_heart_rates, c3row, mkR, lookupHR_c3, ffillList,
      applyHR, hl]
  · norm_num [claimHRs, claimHRsAux, claimResolveOrig, nearestPreceding,
      c3row, c3pts, mkR, hrMax, max_def]

/-- C3 (amended): for a heart-rate series of at least two points, sorted
strictly by offset, the resampler succeeds and each row's resolved heart
rate is exactly the claim's description — the truncated piecewise-linear
interpolant (constant-slope extrapolation) at the row's own offset when
that offset is a positive integer multiple of 5 *strictly below the
maximum offset plus one second* (the code's `arange(5, max + 1, 5)`
grid; "up to the maximum inclusive" whenever the maximum is an integer),
and otherwise the value at the nearest preceding resolved row
(forward-fill), unresolved before the first such row. -/
theorem hr_resample_grid_fixed (pts : List (ℚ × ℚ)) (rows : List Row)
    (h2 : 2 ≤ pts.length)
    (hs : List.Chain' (fun a b => a.1 < b.1) pts) :
    ∃ out, interpolate_heart_rates pts rows = some out ∧
      out.map Row.hr = claimHRs (claimResolveAmended pts) (rows.map Row.t) ∧
      out.map Row.t = rows.map Row.t := by
  have hnot : ¬pts.length < 2 := not_lt.2 h2
  refine ⟨applyHR rows (ffillList none (rows.map fun r => lookupHR pts r.t)),
    by rw [interpolate_heart_rates, if_neg hnot], ?_, applyHR_map_t rows _⟩
  rw [applyHR_map_hr _ _ (by rw [ffillList_length, List.length_map])]
  have hmap : (rows.map fun r => lookupHR pts r.t) =
      (rows.map Row.t).map (lookupHR pts) := by
    rw [List.map_map]; rfl
  have hfun : lookupHR pts = claimResolveAmended pts :=
    funext (lookupHR_eq_claimAmended pts hs)
  have hff := ffill_claim_eq (claimResolveAmended pts) (rows.map Row.t) []
  rw [show nearestPreceding (claimResolveAmended pts) [] = none from rfl] at hff
  rw [hmap, hfun, hff]
  rfl

/-- Witness for the amended C3: two integer-offset points, one row at
offset 5. -/
theorem hr_resample_grid_fixed_witness :
    ∃ out,
      interpolate_heart_rates [(0, 60), (10, 120)] [mkR 5 36 100 50 80] =
        some out ∧
      out.map Row.hr =
        claimHRs (claimResolveAmended [(0, 60), (10, 120)])
          ([mkR 5 36 100 50 80].map Row.t) ∧
      out.map Row.t = [mkR 5 36 100 50 80].map Row.t := by
  refine hr_resample_grid_fixed [(0, 60), (10, 120)] [mkR 5 36 100 50 80]
    (by norm_num) ?_
  refine List.chain'_cons.2 ⟨by norm_num, List.chain'_singleton _⟩

/-! ## C6 — the Metrics Aggregator on an empty table -/

/-- C6: `calculate_metrics` fails exactly on the empty table (the
`iloc[-1]`/`iloc[0]` reads raise there); on any non-empty table it
returns metrics rather than failing or fabricating values. -/
theorem metrics_empty_fails (rows : List Row) :
    calculate_metrics rows = none ↔ rows = [] := by
  cases rows with
  | nil => simp [calculate_metrics]
  | cons r0 rest => simp [calculate_metrics]

/-! ## C4 — unresolved heart rates and the metrics stage -/

theorem buildTrack_unresolved (rows : List Row) :
    ∀ r ∈ rows, r.hr = none → buildTrack rows = none := by
  induction rows with
  | nil => simp
  | cons a rows ih =>
    intro r hr hnone
    rcases List.mem_cons.1 hr with rfl | hmem
    · have hm : mkTrackpoint r = none := by rw [mkTrackpoint, hnone]
      rw [buildTrack, hm]
    · rw [buildTrack, ih r hmem hnone]
      cases mkTrackpoint a <;> rfl

/-- The pipeline up to and including heart-rate resampling, for the C4
counterexample. -/
def staged4 : Option (List Row) :=
  (process_samples fields8 [⟨3, [36, 100, 0, 60]⟩, ⟨5, [36, 100, 20, 60]⟩]).bind
    fun t1 => (calculate_distances t1).bind
      fun t2 => interpolate_heart_rates [(5, 100), (10, 110)] t2

/-- The table `staged4` produces: its first row (offset 3, before the
first resolvable offset 5) has an unresolved heart rate. -/
def table4 : List Row :=
  [{ mkR 3 36 100 0 60 with smooth := some 0, hr := none },
   { mkR 5 36 100 20 60 with smooth := some 20, hr := some 100 }]

theorem staged4_eval : staged4 = some table4 := by
  have e1 : process_samples fields8
      [⟨3, [36, 100, 0, 60]⟩, ⟨5, [36, 100, 20, 60]⟩] =
      some [mkR 3 36 100 0 60, mkR 5 36 100 20 60] := by decide
  have e2 : calculate_distances [mkR 3 36 100 0 60, mkR 5 36 100 20 60] =
      some [{ mkR 3 36 100 0 60 with smooth := some 0 },
            { mkR 5 36 100 20 60 with smooth := some 20 }] := by
    norm_num [calculate_distances, factor, pass1Loop, pass1Step, pass2Rows,
      pass2Step, oDiv, deltaSec, rfloor, List.getLast, mkR]
  have egrid : gridKeys [((5 : ℚ), (100 : ℚ)), (10, 110)] = [5, 10] := by
    have : gridLen (hrMax [((5 : ℚ), (100 : ℚ)), (10, 110)]) = 2 := by
      norm_num [gridLen, hrMax, max_def, rceil, rfloor]
      rfl
    rw [gridKeys, this]; rfl
  have el3 : lookupHR [((5 : ℚ), (100 : ℚ)), (10, 110)] 3 = none := by
    rw [lookupHR]
    norm_num [hrTable, egrid]
  have el5 : lookupHR [((5 : ℚ), (100 : ℚ)), (10, 110)] 5 = some 100 := by
    rw [lookupHR]
    norm_num [hrTable, egrid, sortPairs, insertPair, interpAt, qTrunc,
      rceil, rfloor]
  have e3 : interpolate_heart_rates [(5, 100), (10, 110)]
      [{ mkR 3 36 100 0 60 with smooth := some 0 },
       { mkR 5 36 100 20 60 with smooth := some 20 }] = some table4 := by
    norm_num [interpolate_heart_rates, table4, mkR, el3, el5, ffillList,
      applyHR]
  rw [staged4, e1, Option.some_bind, e2, Option.some_bind, e3]

/-- Counterexample to C4 as stated: `table4` is reachable from raw input
(`staged4`), its first row's heart rate is unresolved, and yet
`calculate_metrics` *succeeds*, quietly averaging over the resolved rows
only (pandas `mean`/`max` skip `NaN`) — it does not fail with DataError. -/
theorem metrics_unresolved_cex :
    staged4 = some table4 ∧
    (∃ r ∈ table4, r.hr = none) ∧
    calculate_metrics table4 =
      some { totalTimeSeconds := 2, totalDistanceMeters := some 20,
             maxSpeed := some 36, avgHeartRateBpm := some 100,
             maxHeartRateBpm := some 100 } := by
  refine ⟨staged4_eval, ⟨table4.head (by decide), by decide, by decide⟩, ?_⟩
  norm_num [calculate_metrics, table4, mkR, optMax, optMean, List.getLast,
    max_def, List.filterMap_cons, List.filterMap_nil, List.foldl_cons,
    List.foldl_nil, List.sum_cons, List.sum_nil]

/-- C4 (amended): a table containing unresolved heart rates does *not*
fail at the metrics stage — `calculate_metrics` succeeds on any non-empty
table, computing average and maximum heart rate over the resolved cells
only (`optMean`/`optMax` skip missing cells, as pandas `mean`/`max` skip
`NaN`).  The conversion instead aborts later, in the Activity Writer,
whose `int(...)` cast fails on the first unresolved row, so no output
file is produced. -/
theorem metrics_skip_unresolved (rows : List Row) (hne : rows ≠ []) :
    ∃ m, calculate_metrics rows = some m ∧
      m.avgHeartRateBpm = optMean (rows.map Row.hr) ∧
      m.maxHeartRateBpm = optMax (rows.map Row.hr) ∧
      ((∃ r ∈ rows, r.hr = none) → ∀ m2, create_tcx rows m2 = none) := by
  cases rows with
  | nil => exact absurd rfl hne
  | cons r0 rest =>
    refine ⟨_, rfl, rfl, rfl, ?_⟩
    rintro ⟨r, hmem, hnone⟩ m2
    rw [create_tcx, buildTrack_unresolved _ r hmem hnone]
    rfl

/-- Witness for the amended C4, at the reachable table `table4`. -/
theorem metrics_skip_unresolved_witness :
    ∃ m, calculate_metrics table4 = some m ∧
      m.avgHeartRateBpm = optMean (table4.map Row.hr) ∧
      m.maxHeartRateBpm = optMax (table4.map Row.hr) ∧
      ((∃ r ∈ table4, r.hr = none) → ∀ m2, create_tcx table4 m2 = none) :=
  metrics_skip_unresolved table4 (by decide)

/-! ## C9 — the Activity Writer's track -/

theorem buildTrack_some (rows : List Row) :
    ∀ tps, buildTrack rows = some tps →
      tps.length = rows.length ∧
      ∀ i (hi : i < tps.length) (hj : i < rows.length),
        mkTrackpoint (rows.get ⟨i, hj⟩) = some (tps.get ⟨i, hi⟩) := by
  induction rows with
  | nil =>
    intro tps h
    obtain rfl : [] = tps := Option.some.inj h
    exact ⟨rfl, fun i hi => absurd hi (by simp)⟩
  | cons r rows ih =>
    intro tps h
    rw [buildTrack] at h
    cases hm : mkTrackpoint r with
    | none => rw [hm] at h; cases buildTrack rows <;> exact absurd h (by simp)
    | some tp =>
      rw [hm] at h
      cases hb : buildTrack rows with
      | none => rw [hb] at h; exact absurd h (by simp)
      | some tps' =>
        rw [hb] at h
        obtain rfl : tp :: tps' = tps := Option.some.inj h
        obtain ⟨hlen, hget⟩ := ih tps' hb
        refine ⟨by simp [hlen], ?_⟩
        intro i hi hj
        cases i with
        | zero => simpa using hm
        | succ n =>
          have hi' : n < tps'.length := by simpa using hi
          have hj' : n < rows.length := by simpa using hj
          simpa using hget n hi' hj'

theorem mkTrackpoint_some {r : Row} {tp : Trackpoint}
    (h : mkTrackpoint r = some tp) :
    ∃ hv, r.hr = some hv ∧
      tp = { time := r.t, distanceMeters := r.smooth.map round1,
             hrValue := qTrunc hv, cadence := r.rpm,
             speedMS := r.speed.map (fun s => round1 (s / 3.6)),
             watts := r.power } := by
  cases hh : r.hr with
  | none => rw [mkTrackpoint, hh] at h; exact absurd h (by simp)
  | some hv =>
    rw [mkTrackpoint, hh] at h
    exact ⟨hv, rfl, (Option.some.inj h).symm⟩

/-- C9: a successfully written document carries exactly one trackpoint
per table row, in table order; trackpoint `i` renders row `i` with its
smoothed distance rounded to one decimal place and its heart rate as the
integer `int(HeartRate)` (hence a whole-number string). -/
theorem writer_trackpoints (rows : List Row) (m : Metrics) (doc : TCX)
    (h : create_tcx rows m = some doc) :
    doc.track.length = rows.length ∧
    ∀ i (hi : i < doc.track.length) (hj : i < rows.length),
      ∃ hv, (rows.get ⟨i, hj⟩).hr = some hv ∧
        doc.track.get ⟨i, hi⟩ =
          { time := (rows.get ⟨i, hj⟩).t
            distanceMeters := (rows.get ⟨i, hj⟩).smooth.map round1
            hrValue := qTrunc hv
            cadence := (rows.get ⟨i, hj⟩).rpm
            speedMS := (rows.get ⟨i, hj⟩).speed.map (fun s => round1 (s / 3.6))
            watts := (rows.get ⟨i, hj⟩).power } := by
  rw [create_tcx] at h
  cases hb : buildTrack rows with
  | none => rw [hb] at h; exact absurd h (by simp)
  | some tps =>
    rw [hb, Option.map_some'] at h
    obtain rfl := Option.some.inj h
    obtain ⟨hlen, hget⟩ := buildTrack_some rows tps hb
    refine ⟨hlen, ?_⟩
    intro i hi hj
    obtain ⟨hv, hhr, htp⟩ := mkTrackpoint_some (hget i hi hj)
    exact ⟨hv, hhr, htp⟩

/-- A one-row completed table, its metrics, and its expected document. -/
def rows9 : List Row :=
  [{ mkR 0 36 100 50 80 with smooth := some 10, hr := some 99 }]

def m9 : Metrics :=
  { totalTimeSeconds := 0, totalDistanceMeters := some 10,
    maxSpeed := some 36, avgHeartRateBpm := some 99,
    maxHeartRateBpm := some 99 }

def tp9 : Trackpoint :=
  { time := 0, distanceMeters := some 10, hrValue := 99,
    cadence := some 80, speedMS := some 10, watts := some 100 }

def tcx9 : TCX :=
  { sport := "Biking", totalTimeSeconds := 0, distanceMeters := some 10,
    maxSpeed := some 36, calories := 0, avgHeartRateBpm := some 99,
    maxHeartRateBpm := some 99, intensity := "Active",
    triggerMethod := "Manual", track := [tp9] }

theorem create_tcx_rows9 : create_tcx rows9 m9 = some tcx9 := by
  norm_num [create_tcx, buildTrack, mkTrackpoint, rows9, m9, tcx9, tp9,
    mkR, round1, roundHE, qTrunc, rceil, rfloor]

/-- Witness for C9: the one-row table yields exactly one trackpoint, with
the rounded distance and integer heart rate. -/
theorem writer_trackpoints_witness :
    tcx9.track.length = rows9.length ∧
    ∃ hv, (rows9.get ⟨0, by decide⟩).hr = some hv ∧
      tcx9.track.get ⟨0, by decide⟩ =
        { time := (rows9.get ⟨0, by decide⟩).t
          distanceMeters := (rows9.get ⟨0, by decide⟩).smooth.map round1
          hrValue := qTrunc hv
          cadence := (rows9.get ⟨0, by decide⟩).rpm
          speedMS := (rows9.get ⟨0, by decide⟩).speed.map
            (fun s => round1 (s / 3.6))
          watts := (rows9.get ⟨0, by decide⟩).power } := by
  have h := writer_trackpoints rows9 m9 tcx9 create_tcx_rows9
  exact ⟨h.1, h.2 0 (by decide) (by decide)⟩
